import Mathlib

/-!
Verification of the walk-forward evaluation engine of the darts forecasting
library (src/darts/models/forecasting/forecasting_model.py), shallowly embedded
over an integer time axis.  A series with a calendar or range index is modelled
as a start timestamp, a positive step (frequency), and a list of value vectors;
timestamps are integers.  Model fit/predict is the abstract contract the engine
uses.  Fallible code returns Except, mirroring Python exceptions.
-/

namespace Darts

/-- A time series: fixed-frequency timestamps `t0, t0+freq, ...` carrying one
value per timestamp, plus the series-level metadata that `historical_forecasts`
copies into its assembled output (columns, static covariates, hierarchy). -/
structure TimeSeries (V : Type) where
  t0 : Int
  freq : Int
  vals : List V
  columns : List String
  static_covariates : Option String
  hierarchy : Option String
  deriving Repr, DecidableEq

namespace TimeSeries

variable {V : Type}

/-- Number of points in the series (`len(series)`). -/
def len (s : TimeSeries V) : Nat := s.vals.length

/-- `series.time_index`: the list of timestamps. -/
def time_index (s : TimeSeries V) : List Int :=
  (List.range s.len).map (fun i : Nat => s.t0 + (i : Int) * s.freq)

/-- `series.end_time()`: the last timestamp. -/
def end_time (s : TimeSeries V) : Int := s.t0 + ((s.len - 1 : Nat) : Int) * s.freq

/-- `series.start_time()`: the first timestamp. -/
def start_time (s : TimeSeries V) : Int := s.t0

/-- Modelled from the spec: the series container's drop-after-timestamp
operation (`TimeSeries.drop_after`, not under `src/`).  It keeps exactly the
points whose timestamp lies strictly before `t`, so that the training series
built from a prediction time `t` ends at the forecast-origin and the forecast
starts immediately after it (spec glossary and section 4.2). -/
def drop_after (s : TimeSeries V) (t : Int) : TimeSeries V :=
  { s with vals :=
      s.vals.take ((List.range s.len).countP (fun i : Nat => decide (s.t0 + (i : Int) * s.freq < t))) }

/-- Python `series[-L:]`: the trailing `L` points (all of them when `L ≥ len`).
The start timestamp moves to the timestamp of index `len - L`. -/
def lastN (s : TimeSeries V) (L : Nat) : TimeSeries V :=
  { s with t0 := s.t0 + ((s.len - L : Nat) : Int) * s.freq,
           vals := s.vals.drop (s.len - L) }

end TimeSeries

/-- The retrain argument of `historical_forecasts`: a boolean, a (validated
nonnegative) integer, or a callable.  For a callable, `usesPast` and
`usesFuture` record whether the names `past_covariates` and `future_covariates`
appear in its signature (the source inspects `retrain_func_signature`); for the
boolean and integer policies the wrapped lambda only declares `counter`, so
both flags are false. -/
inductive Retrain (V : Type) where
  | bool (b : Bool)
  | int (k : Int)
  | callable (f : Nat → Int → TimeSeries V → Option (TimeSeries V) → Option (TimeSeries V) → Bool)
      (usesPast usesFuture : Bool)

/-- Whether `past_covariates` is in the retrain function's signature. -/
def Retrain.usesPastCov {V : Type} : Retrain V → Bool
  | .callable _ up _ => up
  | _ => false

/-- Whether `future_covariates` is in the retrain function's signature. -/
def Retrain.usesFutureCov {V : Type} : Retrain V → Bool
  | .callable _ _ uf => uf
  | _ => false

/-- `isinstance(retrain, Callable) or int(retrain) != 1`, the guard of the
non-retrainable-model check (`int(True) = 1`, `int(False) = 0`). -/
def Retrain.notAlways {V : Type} : Retrain V → Bool
  | .bool b => !b
  | .int k => decide (k ≠ 1)
  | .callable _ _ _ => true

/-- The abstract model contract the engine drives (spec section 6): `fit`
updates the model state from a training series and optional covariates;
`predictVals` produces the forecast values from the state, the input series and
optional covariates, a horizon `n` and `num_samples`.  Internals are out of
scope; the engine only observes state, `min_train_series_length`, and whether
skipping retraining is supported. -/
structure ModelCls (S V : Type) where
  fit : S → TimeSeries V → Option (TimeSeries V) → Option (TimeSeries V) → S
  predictVals : S → TimeSeries V → Option (TimeSeries V) → Option (TimeSeries V) → Nat → Nat → List V
  min_train_series_length : Int
  supports_non_retrainable : Bool

/-- Errors raised by the engine (Python exceptions). -/
inductive HFError where
  | invalidHorizon
  | invalidStride
  | invalidStart
  | retrainNotSupported
  | trainLengthNotPositive
  | trainLengthTooSmall
  | retrainBadType
  | indexError
  deriving Repr, DecidableEq

/-- `_get_last_prediction_time`: the last timestamp at which a forecast may
start.  With `overlap_end` it is `series.time_index[-1]`; otherwise it is
`series.time_index[-forecast_horizon]`, which requires
`1 ≤ forecast_horizon ≤ len` (a Python negative index raises otherwise). -/
def get_last_prediction_time {V : Type} (series : TimeSeries V) (forecast_horizon : Nat)
    (overlap_end : Bool) : Except HFError Int :=
  if overlap_end then
    if 1 ≤ series.len then .ok series.end_time else .error .indexError
  else
    if 1 ≤ forecast_horizon ∧ forecast_horizon ≤ series.len then
      .ok (series.t0 + ((series.len - forecast_horizon : Nat) : Int) * series.freq)
    else .error .indexError

/-- One step of the prediction-time loop, iterated as `predTimesGo`:
`while pred_times[-1] < last: append pred_times[-1] + step`.  The fuel
argument makes the recursion structural; `pred_times` supplies enough fuel
for any positive step. -/
def predTimesGo (last step : Int) : Nat → Int → List Int
  | 0, cur => [cur]
  | n + 1, cur => if cur < last then cur :: predTimesGo last step n (cur + step) else [cur]

/-- The schedule of prediction times of `historical_forecasts`: start at
`start`, advance by `step = series.freq * stride` while strictly before
`last`, then drop the final point if it overshot `last`. -/
def pred_times (start last step : Int) : List Int :=
  let pt := predTimesGo last step ((last - start).toNat / step.toNat + 1) start
  if pt.getLastD start > last then pt.dropLast else pt

/-- The training series of one iteration: `train = series.drop_after(pred_time)`
then, when `train_length` is set (validated positive) and the prefix is longer,
`train = train[-train_length:]`. -/
def trainOf {V : Type} (series : TimeSeries V) (train_length : Option Int) (t : Int) :
    TimeSeries V :=
  let train := series.drop_after t
  match train_length with
  | some L => if L ≠ 0 ∧ L < (train.len : Int) then train.lastN L.toNat else train
  | none => train

/-- The past-covariate window handed to the retrain callable:
`past_covariates.drop_after(pred_time)` when covariates are given and the
callable declares `past_covariates`, else `None`. -/
def pastWinOf {V : Type} (r : Retrain V) (past : Option (TimeSeries V)) (t : Int) :
    Option (TimeSeries V) :=
  match past with
  | some pc => if r.usesPastCov then some (pc.drop_after t) else none
  | none => none

/-- The future-covariate window handed to the retrain callable:
`future_covariates.drop_after(min(pred_time + series.freq * forecast_horizon,
series.end_time()))` when given and declared, else `None`. -/
def futWinOf {V : Type} (r : Retrain V) (future : Option (TimeSeries V))
    (series : TimeSeries V) (forecast_horizon : Nat) (t : Int) : Option (TimeSeries V) :=
  match future with
  | some fc =>
      if r.usesFutureCov then
        some (fc.drop_after (min (t + series.freq * (forecast_horizon : Int)) series.end_time))
      else none
  | none => none

/-- The retrain decision function built at the top of `historical_forecasts`:
for a boolean or integer policy it is
`lambda counter: counter % int(retrain) == 0 if retrain else False`; a callable
is invoked with the prediction time, training series and covariate windows. -/
def retrainDecision {V : Type} (r : Retrain V) (counter : Nat) (t : Int) (train : TimeSeries V)
    (pastWin futWin : Option (TimeSeries V)) : Bool :=
  match r with
  | .bool b => if b then decide ((counter : Int) % 1 = 0) else false
  | .int k => if k ≠ 0 then decide ((counter : Int) % k = 0) else false
  | .callable f _ _ => f counter t train pastWin futWin

/-- Modelled from the spec: the model's predict contract
(`_build_forecast_series` and spec section 6) — the forecast series starts
immediately after the end of the training series and holds the predicted
values. -/
def mkForecast {S V : Type} (M : ModelCls S V) (st : S) (train : TimeSeries V)
    (past future : Option (TimeSeries V)) (freq : Int) (n num_samples : Nat) : TimeSeries V :=
  { t0 := train.end_time + freq
    freq := freq
    vals := M.predictVals st train past future n num_samples
    columns := train.columns
    static_covariates := train.static_covariates
    hierarchy := train.hierarchy }

/-- What one iteration of the walk-forward loop did: the iteration counter, the
prediction time, the training series, whether the model was (re)fit, the
arguments of the fit call when one happened, the covariate windows offered to
the retrain callable, and the produced forecast. -/
structure IterRecord (V : Type) where
  counter : Nat
  pred_time : Int
  train : TimeSeries V
  didFit : Bool
  fitSeries : Option (TimeSeries V)
  fitPast : Option (TimeSeries V)
  fitFuture : Option (TimeSeries V)
  retrainPast : Option (TimeSeries V)
  retrainFuture : Option (TimeSeries V)
  forecast : TimeSeries V

/-- The walk-forward loop of `historical_forecasts`: for each prediction time,
build the training series, decide
`(not self._fit_called) or retrain_func(...)`, fit on the training series and
the full (unsliced) covariates when the decision is true, then predict.  The
model-state/`_fit_called` pair is threaded through; each iteration is recorded. -/
def hfLoop {S V : Type} (M : ModelCls S V) (series : TimeSeries V)
    (past future : Option (TimeSeries V)) (train_length : Option Int)
    (forecast_horizon num_samples : Nat) (r : Retrain V) :
    Nat → S → Bool → List Int → List (IterRecord V)
  | _, _, _, [] => []
  | counter, st, fitCalled, t :: ts =>
    let train := trainOf series train_length t
    let pw := pastWinOf r past t
    let fw := futWinOf r future series forecast_horizon t
    let doFit := !fitCalled || retrainDecision r counter t train pw fw
    let st' := if doFit then M.fit st train past future else st
    { counter := counter
      pred_time := t
      train := train
      didFit := doFit
      fitSeries := if doFit then some train else none
      fitPast := if doFit then past else none
      fitFuture := if doFit then future else none
      retrainPast := pw
      retrainFuture := fw
      forecast := mkForecast M st' train past future series.freq forecast_horizon num_samples } ::
      hfLoop M series past future train_length forecast_horizon num_samples r
        (counter + 1) st' (fitCalled || doFit) ts

/-- The return value of `historical_forecasts`: one collapsed series
(`last_points_only = True`) or the list of per-iteration forecasts. -/
inductive HFOutput (V : Type) where
  | single (s : TimeSeries V)
  | several (l : List (TimeSeries V))

/-- The result assembly at the end of `historical_forecasts`: with
`last_points_only` the last point of every forecast is collected into one
series with step `series.freq * stride` and the columns, static covariates and
hierarchy of the input series (`TimeSeries.from_times_and_values(...)`); an
empty schedule makes the Python code index an empty list.  Otherwise the list
of forecasts is returned as is. -/
def assembleResult {V : Type} [Inhabited V] (series : TimeSeries V) (stride : Nat)
    (last_points_only : Bool) (records : List (IterRecord V)) :
    Except HFError (HFOutput V) :=
  if last_points_only then
    match records with
    | [] => .error .indexError
    | r0 :: _ =>
        .ok (.single
          { t0 := r0.forecast.end_time
            freq := series.freq * (stride : Int)
            vals := records.map (fun rc => rc.forecast.vals.getLastD default)
            columns := series.columns
            static_covariates := series.static_covariates
            hierarchy := series.hierarchy })
  else .ok (.several (records.map (fun rc => rc.forecast)))

/-- The `train_length` validation of `historical_forecasts`: positive and at
least the model's minimum training length. -/
def trainLengthError {S V : Type} (M : ModelCls S V) : Option Int → Option HFError
  | none => none
  | some L =>
      if L < 1 then some .trainLengthNotPositive
      else if L < M.min_train_series_length then some .trainLengthTooSmall
      else none

/-- The `retrain` type validation: booleans, nonnegative integers and
callables are accepted. -/
def retrainTypeError {V : Type} : Retrain V → Option HFError
  | .bool _ => none
  | .int k => if k < 0 then some .retrainBadType else none
  | .callable _ _ _ => none

/-- The parameter validation of `historical_forecasts`, in source order: the
general sanity checks (modelled from the spec: `_historical_forecasts_general_checks`
is not under `src/` — `forecast_horizon` and `stride` must be positive), the
non-retrainable-model check, the `train_length` checks, the `retrain` type
check, and the start resolution (modelled from the spec:
`get_timestamp_at_point` is not under `src/` — an integer start indexes the
time index directly and must lie inside the series range). -/
def hfValidate {S V : Type} (M : ModelCls S V) (series : TimeSeries V)
    (train_length : Option Int) (start : Nat) (forecast_horizon stride : Nat)
    (r : Retrain V) : Option HFError :=
  if forecast_horizon < 1 then some .invalidHorizon
  else if stride < 1 then some .invalidStride
  else if r.notAlways && !M.supports_non_retrainable then some .retrainNotSupported
  else
    match trainLengthError M train_length with
    | some e => some e
    | none =>
        match retrainTypeError r with
        | some e => some e
        | none => if start < series.len then none else some .invalidStart

/-- `historical_forecasts`, instrumented: validates the parameters, computes
the last valid prediction time and the schedule of prediction times, runs the
walk-forward loop, and assembles the result.  Returns the per-iteration records
alongside the output. -/
def historicalForecastsRun {S V : Type} [Inhabited V] (M : ModelCls S V) (st0 : S)
    (fitCalled0 : Bool) (series : TimeSeries V) (past future : Option (TimeSeries V))
    (num_samples : Nat) (train_length : Option Int) (start : Nat)
    (forecast_horizon stride : Nat) (r : Retrain V) (overlap_end last_points_only : Bool) :
    Except HFError (List (IterRecord V) × HFOutput V) :=
  match hfValidate M series train_length start forecast_horizon stride r with
  | some e => .error e
  | none =>
    match get_last_prediction_time series forecast_horizon overlap_end with
    | .error e => .error e
    | .ok lastValid =>
      let startTs := series.t0 + (start : Int) * series.freq
      let pt := pred_times startTs lastValid (series.freq * (stride : Int))
      let records := hfLoop M series past future train_length forecast_horizon num_samples r
        0 st0 fitCalled0 pt
      match assembleResult series stride last_points_only records with
      | .error e => .error e
      | .ok out => .ok (records, out)

/-- `historical_forecasts`: the user-facing result of the walk-forward run. -/
def historical_forecasts {S V : Type} [Inhabited V] (M : ModelCls S V) (st0 : S)
    (fitCalled0 : Bool) (series : TimeSeries V) (past future : Option (TimeSeries V))
    (num_samples : Nat) (train_length : Option Int) (start : Nat)
    (forecast_horizon stride : Nat) (r : Retrain V) (overlap_end last_points_only : Bool) :
    Except HFError (HFOutput V) :=
  (historicalForecastsRun M st0 fitCalled0 series past future num_samples train_length start
    forecast_horizon stride r overlap_end last_points_only).map Prod.snd

/-! ### Backtest (error scoring on historical forecasts) -/

/-- The `metric` argument of `backtest`: a single metric function or a list of
them (`if not isinstance(metric, list): metric = [metric]`). -/
inductive MetricArg (V : Type) where
  | single (m : TimeSeries V → TimeSeries V → Rat)
  | list (ms : List (TimeSeries V → TimeSeries V → Rat))

/-- Normalize the metric argument to a list. -/
def MetricArg.toMetricList {V : Type} : MetricArg V → List (TimeSeries V → TimeSeries V → Rat)
  | .single m => [m]
  | .list ms => ms

/-- The value `backtest` returns: a scalar, a vector (one entry per metric, or
one row of the matrix), or the raw iterations-by-metrics matrix. -/
inductive BacktestResult where
  | scalar (x : Rat)
  | vector (xs : List Rat)
  | matrix (m : List (List Rat))
  deriving DecidableEq

/-- `np.mean` of a vector of scores. -/
def npMean (l : List Rat) : Rat := l.sum / (l.length : Rat)

/-- `reduction(np.array(errors), axis=0)`: the reduction applied along the
iteration axis of the iterations-by-metrics matrix, one value per metric
column. -/
def reduceAxis0 (red : List Rat → Rat) (ncols : Nat) (m : List (List Rat)) : List Rat :=
  (List.range ncols).map (fun j : Nat => red (m.map (fun row => row.getD j 0)))

/-- `backtest`: run `historical_forecasts`, then score.  With
`last_points_only` each metric is applied once to the assembled series;
otherwise every forecast is scored by every metric and the matrix is reduced
along the iteration axis unless `reduction` is `None`.  A single requested
metric unwraps `errors[0]`. -/
def backtest {S V : Type} [Inhabited V] (M : ModelCls S V) (st0 : S) (fitCalled0 : Bool)
    (series : TimeSeries V) (past future : Option (TimeSeries V)) (num_samples : Nat)
    (train_length : Option Int) (start : Nat) (forecast_horizon stride : Nat)
    (r : Retrain V) (overlap_end last_points_only : Bool) (metric : MetricArg V)
    (reduction : Option (List Rat → Rat)) : Except HFError BacktestResult :=
  match historical_forecasts M st0 fitCalled0 series past future num_samples train_length
      start forecast_horizon stride r overlap_end last_points_only with
  | .error e => .error e
  | .ok out =>
      let metrics := metric.toMetricList
      match out with
      | .single s =>
          let errors := metrics.map (fun mf => mf series s)
          if metrics.length > 1 then .ok (.vector errors)
          else
            match errors with
            | e :: _ => .ok (.scalar e)
            | [] => .error .indexError
      | .several fs =>
          let errMatrix := fs.map (fun f => metrics.map (fun mf => mf series f))
          match reduction with
          | some red =>
              let errors := reduceAxis0 red metrics.length errMatrix
              if metrics.length > 1 then .ok (.vector errors)
              else
                match errors with
                | e :: _ => .ok (.scalar e)
                | [] => .error .indexError
          | none =>
              if metrics.length > 1 then .ok (.matrix errMatrix)
              else
                match errMatrix with
                | row :: _ => .ok (.vector row)
                | [] => .error .indexError

/-! ### Grid search: candidate selection -/

/-- The `n_random_samples` argument of `gridsearch`: an absolute count or a
fraction of the parameter cross product. -/
inductive NRandomSamples where
  | int (n : Int)
  | float (q : Rat)

/-- Modelled from the spec and the Python standard library contract:
`random.sample(population, k)` draws `k` distinct elements; the randomness
source is modelled as an oracle of index choices (taken modulo the number of
remaining elements). -/
def pySample {P : Type} (oracle : Nat → Nat) : List P → Nat → List P
  | _, 0 => []
  | l, k + 1 =>
      match l with
      | [] => []
      | x :: _ =>
          let i := oracle k % l.length
          l.getD i x :: pySample oracle (l.take i ++ l.drop (i + 1)) k

/-- `_sample_params`: with an integer in `(0, total]` draw exactly that many
combinations; with a float in `(0, 1]` draw `int(fraction * total)` of them;
otherwise raise. -/
def sample_params {P : Type} (oracle : Nat → Nat) (params : List P) :
    NRandomSamples → Except HFError (List P)
  | .int n =>
      if 0 < n ∧ n ≤ (params.length : Int) then .ok (pySample oracle params n.toNat)
      else .error .indexError
  | .float q =>
      if 0 < q ∧ q ≤ 1 then
        .ok (pySample oracle params (Int.toNat ⌊q * (params.length : Rat)⌋))
      else .error .indexError

/-- `itertools.product(*parameters.values())`: the Cartesian product of the
hyperparameter value lists, last list varying fastest. -/
def listProduct {A : Type} : List (List A) → List (List A)
  | [] => [[]]
  | l :: ls => (l.map (fun x => (listProduct ls).map (fun combo => x :: combo))).flatten

/-- The candidate-combination selection step of `gridsearch`: the full cross
product, down-sampled through `_sample_params` when `n_random_samples` is
given. -/
def gridsearchCandidates {A : Type} (oracle : Nat → Nat) (paramValues : List (List A))
    (n_random_samples : Option NRandomSamples) : Except HFError (List (List A)) :=
  match n_random_samples with
  | none => .ok (listProduct paramValues)
  | some nr => sample_params oracle (listProduct paramValues) nr

/-! ### Helpers naming parts of a run result -/

/-- The iteration records of a successful run (empty on error). -/
def recsOf {V : Type} (e : Except HFError (List (IterRecord V) × HFOutput V)) :
    List (IterRecord V) :=
  match e with
  | .ok p => p.1
  | .error _ => []

/-- The output of a successful run (an empty forecast list on error). -/
def outOf {V : Type} (e : Except HFError (List (IterRecord V) × HFOutput V)) : HFOutput V :=
  match e with
  | .ok p => p.2
  | .error _ => .several []

/-- The collapsed series of a `single` output. -/
def theSingle {V : Type} : HFOutput V → TimeSeries V
  | .single s => s
  | .several _ => ⟨0, 0, [], [], none, none⟩

/-- The forecast list of a `several` output. -/
def theSeveral {V : Type} : HFOutput V → List (TimeSeries V)
  | .several l => l
  | .single _ => []

/-- The output of a successful `historical_forecasts` call. -/
def hfOutputOf {V : Type} (e : Except HFError (HFOutput V)) : HFOutput V :=
  match e with
  | .ok o => o
  | .error _ => .several []

/-! ### Concrete instances used to exercise the engine -/

/-- A small concrete model: the state counts fit calls, and a prediction
repeats the training-series length for each forecast step. -/
def demoM : ModelCls Nat Int :=
  { fit := fun s _ _ _ => s + 1
    predictVals := fun _ tr _ _ n _ => List.replicate n (tr.len : Int)
    min_train_series_length := 1
    supports_non_retrainable := true }

/-- A five-point integer-indexed series with timestamps 0..4. -/
def seriesW : TimeSeries Int := ⟨0, 1, [10, 11, 12, 13, 14], ["c1"], some "sc", some "hr"⟩

/-- A ten-point past-covariate series with timestamps 0..9, extending well
past the end of `seriesW`. -/
def pcW : TimeSeries Int := ⟨0, 1, [0, 1, 2, 3, 4, 5, 6, 7, 8, 9], ["p"], none, none⟩

/-- A walk-forward run over `seriesW`: start index 3, horizon 1, stride 1,
retrain every iteration, collapsed output. -/
def runW : Except HFError (List (IterRecord Int) × HFOutput Int) :=
  historicalForecastsRun demoM 0 false seriesW none none 1 none 3 1 1 (Retrain.bool true)
    false true

/-- The same walk-forward schedule with `train_length = 2`. -/
def runWtl : Except HFError (List (IterRecord Int) × HFOutput Int) :=
  historicalForecastsRun demoM 0 false seriesW none none 1 (some 2) 3 1 1 (Retrain.bool true)
    false true

/-- A run with `retrain = 2` over four iterations (start index 1). -/
def runWk : Except HFError (List (IterRecord Int) × HFOutput Int) :=
  historicalForecastsRun demoM 0 false seriesW none none 1 none 1 1 1 (Retrain.int 2)
    false false

/-- A run with `retrain = False` on an already-fitted model. -/
def runWfalse : Except HFError (List (IterRecord Int) × HFOutput Int) :=
  historicalForecastsRun demoM 5 true seriesW none none 1 none 3 1 1 (Retrain.bool false)
    false true

/-- A run with the integer retrain value `0` on a never-fitted model. -/
def runWzero : Except HFError (List (IterRecord Int) × HFOutput Int) :=
  historicalForecastsRun demoM 0 false seriesW none none 1 none 1 1 1 (Retrain.int 0)
    false false

/-- A run with past covariates longer than the target, retraining every
iteration, exercising the covariates handed to the fit calls. -/
def runWcov : Except HFError (List (IterRecord Int) × HFOutput Int) :=
  historicalForecastsRun demoM 0 false seriesW (some pcW) none 1 none 3 1 1
    (Retrain.bool true) false true

/-- An aligned-covariate run with a retrain callable that declares both
covariate arguments. -/
def runWcall : Except HFError (List (IterRecord Int) × HFOutput Int) :=
  historicalForecastsRun demoM 0 false seriesW (some pcW) (some pcW) 1 none 3 1 1
    (Retrain.callable (fun c _ _ _ _ => decide (c % 2 = 0)) true true) false true

/-- A run whose start (index 4, timestamp 4) lies past the last admissible
prediction time for horizon 2 (timestamp 3), so no forecast-origin exists. -/
def runWempty : Except HFError (List (IterRecord Int) × HFOutput Int) :=
  historicalForecastsRun demoM 0 false seriesW none none 1 none 4 2 1 (Retrain.bool true)
    false false

/-- The uninstrumented result of the forecast-list run over `seriesW`. -/
def hfW : Except HFError (HFOutput Int) :=
  historical_forecasts demoM 0 false seriesW none none 1 none 3 1 1 (Retrain.bool true)
    false false

/-- A metric measuring the length of the forecast. -/
def lenMetric : TimeSeries Int → TimeSeries Int → Rat := fun _ f => (f.len : Rat)

/-- A metric reading the first value of the forecast. -/
def headMetric : TimeSeries Int → TimeSeries Int → Rat := fun _ f => ((f.vals.headD 0 : Int) : Rat)

/-! ### Basic lemmas about the prediction-time schedule -/

theorem predTimesGo_ne_nil (last step : Int) (n : Nat) (cur : Int) :
    predTimesGo last step n cur ≠ [] := by
  cases n with
  | zero => simp [predTimesGo]
  | succ n =>
      simp only [predTimesGo]
      split <;> simp

theorem mem_dropLast_predTimesGo_lt (last step : Int) :
    ∀ (n : Nat) (cur : Int), ∀ x ∈ (predTimesGo last step n cur).dropLast, x < last := by
  intro n
  induction n with
  | zero => intro cur x hx; simp [predTimesGo] at hx
  | succ n ih =>
      intro cur x hx
      simp only [predTimesGo] at hx
      by_cases h : cur < last
      · simp only [if_pos h] at hx
        rw [List.dropLast_cons_of_ne_nil (predTimesGo_ne_nil last step n (cur + step))] at hx
        rcases List.mem_cons.mp hx with rfl | hx
        · exact h
        · exact ih (cur + step) x hx
      · simp [if_neg h] at hx

theorem mem_predTimesGo_grid (last step : Int) :
    ∀ (n : Nat) (cur : Int), ∀ x ∈ predTimesGo last step n cur,
      ∃ k : Nat, x = cur + (k : Int) * step := by
  intro n
  induction n with
  | zero =>
      intro cur x hx
      simp only [predTimesGo, List.mem_singleton] at hx
      exact ⟨0, by simp [hx]⟩
  | succ n ih =>
      intro cur x hx
      simp only [predTimesGo] at hx
      by_cases h : cur < last
      · simp only [if_pos h, List.mem_cons] at hx
        rcases hx with rfl | hx
        · exact ⟨0, by simp⟩
        · obtain ⟨k, hk⟩ := ih (cur + step) x hx
          exact ⟨k + 1, by push_cast [hk]; ring⟩
      · simp only [if_neg h, List.mem_singleton] at hx
        exact ⟨0, by simp [hx]⟩

theorem predTimesGo_of_ge (last step : Int) (n : Nat) (cur : Int) (h : ¬cur < last) :
    predTimesGo last step n cur = [cur] := by
  cases n with
  | zero => rfl
  | succ n => simp [predTimesGo, if_neg h]

theorem mem_pred_times_le (start last step : Int) :
    ∀ x ∈ pred_times start last step, x ≤ last := by
  intro x hx
  unfold pred_times at hx
  set pt := predTimesGo last step ((last - start).toNat / step.toNat + 1) start with hpt
  by_cases h : pt.getLastD start > last
  · rw [if_pos h] at hx
    exact le_of_lt (mem_dropLast_predTimesGo_lt last step _ start x hx)
  · rw [if_neg h] at hx
    have hne : pt ≠ [] := predTimesGo_ne_nil _ _ _ _
    have hsplit := List.dropLast_append_getLast hne
    rw [← hsplit] at hx
    rcases List.mem_append.mp hx with hx | hx
    · exact le_of_lt (mem_dropLast_predTimesGo_lt last step _ start x hx)
    · have hxl : x = pt.getLast hne := List.mem_singleton.mp hx
      have : pt.getLastD start = pt.getLast hne := by
        rw [List.getLastD_eq_getLast?, List.getLast?_eq_getLast pt hne]
        rfl
      omega


theorem mem_pred_times_grid (start last step : Int) :
    ∀ x ∈ pred_times start last step, ∃ k : Nat, x = start + (k : Int) * step := by
  intro x hx
  unfold pred_times at hx
  set pt := predTimesGo last step ((last - start).toNat / step.toNat + 1) start with hpt
  have hsub : x ∈ pt := by
    by_cases h : pt.getLastD start > last
    · rw [if_pos h] at hx
      exact List.dropLast_subset pt hx
    · rwa [if_neg h] at hx
  exact mem_predTimesGo_grid last step _ start x hsub

theorem pred_times_empty_of_gt (start last step : Int) (h : last < start) :
    pred_times start last step = [] := by
  unfold pred_times
  rw [predTimesGo_of_ge last step _ start (by omega)]
  simp
  omega

/-! ### Lemmas about training and covariate windows -/

theorem lt_of_lt_countP_range (P : Nat → Bool) (n : Nat)
    (dc : ∀ i j : Nat, i ≤ j → P j = true → P i = true) :
    ∀ i : Nat, i < (List.range n).countP P → P i = true := by
  induction n with
  | zero => intro i hi; simp at hi
  | succ n ih =>
      intro i hi
      rw [List.range_succ, List.countP_append] at hi
      by_cases hPn : P n = true
      · have hc : (List.range n).countP P ≤ n := by
          calc (List.range n).countP P ≤ (List.range n).length := List.countP_le_length P
          _ = n := List.length_range n
        have : i ≤ n := by simp [hPn, List.countP_cons] at hi; omega
        exact dc i n this hPn
      · have : (List.countP P [n]) = 0 := by
          simp [List.countP_cons, hPn]
        rw [this] at hi
        exact ih i (by omega)

theorem TimeSeries.mem_time_index {V : Type} (s : TimeSeries V) (x : Int) :
    x ∈ s.time_index ↔ ∃ i : Nat, i < s.len ∧ x = s.t0 + (i : Int) * s.freq := by
  unfold time_index
  rw [List.mem_map]
  constructor
  · rintro ⟨i, hi, rfl⟩
    exact ⟨i, List.mem_range.mp hi, rfl⟩
  · rintro ⟨i, hi, rfl⟩
    exact ⟨i, List.mem_range.mpr hi, rfl⟩

theorem TimeSeries.drop_after_lt {V : Type} (s : TimeSeries V) (t : Int) (hf : 0 < s.freq) :
    ∀ x ∈ (s.drop_after t).time_index, x < t := by
  intro x hx
  rw [TimeSeries.mem_time_index] at hx
  obtain ⟨i, hi, rfl⟩ := hx
  have hlen : (s.drop_after t).len ≤
      (List.range s.len).countP (fun j : Nat => decide (s.t0 + (j : Int) * s.freq < t)) := by
    show (s.vals.take _).length ≤ _
    rw [List.length_take]
    exact min_le_left _ _
  have hP := lt_of_lt_countP_range (fun j => decide (s.t0 + (j : Int) * s.freq < t)) s.len
    (by
      intro i j hij hPj
      simp only [decide_eq_true_eq] at hPj ⊢
      have : (i : Int) * s.freq ≤ (j : Int) * s.freq :=
        mul_le_mul_of_nonneg_right (by exact_mod_cast hij) (le_of_lt hf)
      omega)
    i (by omega)
  simp only [decide_eq_true_eq] at hP
  exact hP

theorem TimeSeries.lastN_time_index_subset {V : Type} (s : TimeSeries V) (L : Nat) :
    ∀ x ∈ (s.lastN L).time_index, x ∈ s.time_index := by
  intro x hx
  rw [TimeSeries.mem_time_index] at hx ⊢
  obtain ⟨i, hi, rfl⟩ := hx
  have hlen : (s.lastN L).len = s.len - (s.len - L) := by
    simp [TimeSeries.lastN, TimeSeries.len, List.length_drop]
  refine ⟨s.len - L + i, by omega, ?_⟩
  simp only [TimeSeries.lastN]
  push_cast
  ring

theorem trainOf_time_lt {V : Type} (series : TimeSeries V) (tl : Option Int) (t : Int)
    (hf : 0 < series.freq) : ∀ x ∈ (trainOf series tl t).time_index, x < t := by
  intro x hx
  have hdrop := TimeSeries.drop_after_lt series t hf
  unfold trainOf at hx
  cases tl with
  | none => exact hdrop x hx
  | some L =>
      simp only at hx
      split at hx
      · exact hdrop x (TimeSeries.lastN_time_index_subset _ _ x hx)
      · exact hdrop x hx

theorem grid_le_sub_of_lt {f x t b : Int} (hf : 0 < f) (i m : Int)
    (hx : x = b + i * f) (ht : t = b + m * f) (hlt : x < t) : x ≤ t - f := by
  have him : i * f < m * f := by omega
  have : i < m := lt_of_mul_lt_mul_right (by omega) (le_of_lt hf)
  have : i * f ≤ (m - 1) * f :=
    mul_le_mul_of_nonneg_right (by omega) (le_of_lt hf)
  have : (m - 1) * f = m * f - f := by ring
  omega

/-! ### Lemmas about the walk-forward loop -/

section LoopLemmas

variable {S V : Type} (M : ModelCls S V) (series : TimeSeries V)
  (past future : Option (TimeSeries V)) (tl : Option Int) (h ns : Nat) (r : Retrain V)

theorem hfLoop_map_pred_time :
    ∀ (ts : List Int) (c : Nat) (st : S) (fc : Bool),
      (hfLoop M series past future tl h ns r c st fc ts).map (fun rc => rc.pred_time) = ts := by
  intro ts
  induction ts with
  | nil => intro c st fc; rfl
  | cons t ts ih =>
      intro c st fc
      simp only [hfLoop, List.map_cons]
      rw [ih]

theorem hfLoop_length (ts : List Int) (c : Nat) (st : S) (fc : Bool) :
    (hfLoop M series past future tl h ns r c st fc ts).length = ts.length := by
  have := hfLoop_map_pred_time M series past future tl h ns r ts c st fc
  calc (hfLoop M series past future tl h ns r c st fc ts).length
      = ((hfLoop M series past future tl h ns r c st fc ts).map
          (fun rc => rc.pred_time)).length := (List.length_map _ _).symm
    _ = ts.length := by rw [this]

theorem mem_hfLoop :
    ∀ (ts : List Int) (c : Nat) (st : S) (fc : Bool) (rc : IterRecord V),
      rc ∈ hfLoop M series past future tl h ns r c st fc ts →
      rc.pred_time ∈ ts
      ∧ rc.train = trainOf series tl rc.pred_time
      ∧ rc.retrainPast = pastWinOf r past rc.pred_time
      ∧ rc.retrainFuture = futWinOf r future series h rc.pred_time
      ∧ rc.fitSeries = (if rc.didFit then some rc.train else none)
      ∧ rc.fitPast = (if rc.didFit then past else none)
      ∧ rc.fitFuture = (if rc.didFit then future else none) := by
  intro ts
  induction ts with
  | nil => intro c st fc rc hm; simp [hfLoop] at hm
  | cons t ts ih =>
      intro c st fc rc hm
      simp only [hfLoop, List.mem_cons] at hm
      rcases hm with rfl | hm
      · exact ⟨List.mem_cons_self _ _, rfl, rfl, rfl, rfl, rfl, rfl⟩
      · obtain ⟨h1, h2⟩ := ih _ _ _ rc hm
        exact ⟨List.mem_cons_of_mem _ h1, h2⟩

theorem hfLoop_get?_didFit :
    ∀ (ts : List Int) (c : Nat) (st : S) (fc : Bool) (i : Nat) (rc : IterRecord V),
      (hfLoop M series past future tl h ns r c st fc ts).get? i = some rc →
      rc.didFit = ((!(fc || decide (0 < i))) ||
        retrainDecision r (c + i) rc.pred_time rc.train rc.retrainPast rc.retrainFuture) := by
  intro ts
  induction ts with
  | nil => intro c st fc i rc hm; simp [hfLoop] at hm
  | cons t ts ih =>
      intro c st fc i rc hm
      cases i with
      | zero =>
          simp only [hfLoop, List.get?] at hm
          injection hm with hm
          subst hm
          have h0 : decide ((0 : Nat) < 0) = false := rfl
          rw [h0, Bool.or_false, Nat.add_zero]
      | succ i =>
          simp only [hfLoop, List.get?] at hm
          have hrec := ih (c + 1) _ (fc || (!fc || retrainDecision r c t (trainOf series tl t)
            (pastWinOf r past t) (futWinOf r future series h t))) i rc hm
          have hfc : (fc || (!fc || retrainDecision r c t (trainOf series tl t)
              (pastWinOf r past t) (futWinOf r future series h t))) = true := by
            cases fc <;> simp
          rw [hfc] at hrec
          simp only [Bool.true_or, Bool.not_true, Bool.false_or] at hrec
          have hi : c + 1 + i = c + (i + 1) := by omega
          rw [hi] at hrec
          have h1 : decide (0 < i + 1) = true := by simp
          rw [h1, Bool.or_true, Bool.not_true, Bool.false_or]
          exact hrec

end LoopLemmas

theorem historicalForecastsRun_ok_elim {S V : Type} [Inhabited V] {M : ModelCls S V} {st0 : S}
    {fc0 : Bool} {series : TimeSeries V} {past future : Option (TimeSeries V)}
    {ns : Nat} {tl : Option Int} {start h stride : Nat} {r : Retrain V}
    {oe lpo : Bool} {recs : List (IterRecord V)} {out : HFOutput V}
    (hrun : historicalForecastsRun M st0 fc0 series past future ns tl start h stride r oe lpo
      = .ok (recs, out)) :
    hfValidate M series tl start h stride r = none
    ∧ ∃ lv, get_last_prediction_time series h oe = .ok lv
        ∧ recs = hfLoop M series past future tl h ns r 0 st0 fc0
            (pred_times (series.t0 + (start : Int) * series.freq) lv
              (series.freq * (stride : Int)))
        ∧ assembleResult series stride lpo recs = .ok out := by
  unfold historicalForecastsRun at hrun
  cases hv : hfValidate M series tl start h stride r with
  | some e => rw [hv] at hrun; cases hrun
  | none =>
      rw [hv] at hrun
      cases hlv : get_last_prediction_time series h oe with
      | error e => rw [hlv] at hrun; cases hrun
      | ok lv =>
          rw [hlv] at hrun
          simp only [] at hrun
          cases ha : assembleResult series stride lpo
              (hfLoop M series past future tl h ns r 0 st0 fc0
                (pred_times (series.t0 + (start : Int) * series.freq) lv
                  (series.freq * (stride : Int)))) with
          | error e => rw [ha] at hrun; cases hrun
          | ok out' =>
              rw [ha] at hrun
              injection hrun with hpair
              injection hpair with h1 h2
              subst h1
              subst h2
              exact ⟨rfl, lv, rfl, rfl, ha⟩

theorem trainLengthError_none_elim {S V : Type} {M : ModelCls S V} {tl : Option Int}
    (htl : trainLengthError M tl = none) :
    ∀ L, tl = some L → 1 ≤ L ∧ M.min_train_series_length ≤ L := by
  intro L hL
  subst hL
  simp only [trainLengthError] at htl
  by_cases h1 : L < 1
  · rw [if_pos h1] at htl; cases htl
  · rw [if_neg h1] at htl
    by_cases h2 : L < M.min_train_series_length
    · rw [if_pos h2] at htl; cases htl
    · omega

theorem hfValidate_none_elim {S V : Type} {M : ModelCls S V} {series : TimeSeries V}
    {tl : Option Int} {start h stride : Nat} {r : Retrain V}
    (hv : hfValidate M series tl start h stride r = none) :
    1 ≤ h ∧ 1 ≤ stride
    ∧ (r.notAlways && !M.supports_non_retrainable) = false
    ∧ trainLengthError M tl = none
    ∧ retrainTypeError r = none
    ∧ start < series.len := by
  unfold hfValidate at hv
  by_cases h1 : h < 1
  · rw [if_pos h1] at hv; cases hv
  · rw [if_neg h1] at hv
    by_cases h2 : stride < 1
    · rw [if_pos h2] at hv; cases hv
    · rw [if_neg h2] at hv
      by_cases h3 : (r.notAlways && !M.supports_non_retrainable) = true
      · rw [if_pos h3] at hv; cases hv
      · rw [if_neg h3] at hv
        cases htl : trainLengthError M tl with
        | some e => rw [htl] at hv; cases hv
        | none =>
            rw [htl] at hv
            cases hrt : retrainTypeError r with
            | some e => rw [hrt] at hv; cases hv
            | none =>
                rw [hrt] at hv
                by_cases h4 : start < series.len
                · exact ⟨by omega, by omega, Bool.eq_false_iff.mpr h3, rfl, rfl, h4⟩
                · rw [if_neg h4] at hv; cases hv

theorem get_last_prediction_time_false_elim {V : Type} {series : TimeSeries V}
    {h : Nat} {lv : Int}
    (hlv : get_last_prediction_time series h false = .ok lv) :
    1 ≤ h ∧ h ≤ series.len
    ∧ lv = series.t0 + ((series.len - h : Nat) : Int) * series.freq := by
  unfold get_last_prediction_time at hlv
  simp only [Bool.false_eq_true, if_false] at hlv
  by_cases hc : 1 ≤ h ∧ h ≤ series.len
  · rw [if_pos hc] at hlv
    injection hlv with hlv
    exact ⟨hc.1, hc.2, hlv.symm⟩
  · rw [if_neg hc] at hlv; cases hlv

/-- C2: with `overlap_end = false`, every generated forecast-origin (the last
training timestamp, one step before the prediction time) satisfies
`origin + forecast_horizon * step ≤ series.end`, and the last admissible
origin, derived from `_get_last_prediction_time`, is exactly `forecast_horizon`
steps before the series end. -/
theorem hf_origin_bound {S V : Type} [Inhabited V] {M : ModelCls S V} {st0 : S}
    {fc0 : Bool} {series : TimeSeries V} {past future : Option (TimeSeries V)}
    {ns : Nat} {tl : Option Int} {start h stride : Nat} {r : Retrain V} {lpo : Bool}
    {recs : List (IterRecord V)} {out : HFOutput V}
    (hf : 0 < series.freq)
    (hrun : historicalForecastsRun M st0 fc0 series past future ns tl start h stride r
      false lpo = .ok (recs, out)) :
    (∀ rc ∈ recs,
      (rc.pred_time - series.freq) + (h : Int) * series.freq ≤ series.end_time)
    ∧ (∀ lv, get_last_prediction_time series h false = .ok lv →
        lv - series.freq = series.end_time - (h : Int) * series.freq) := by
  obtain ⟨hv, lv, hlv, hrecs, -⟩ := historicalForecastsRun_ok_elim hrun
  obtain ⟨hh1, hhle, hlveq⟩ := get_last_prediction_time_false_elim hlv
  have hcast : ((series.len - h : Nat) : Int) = (series.len : Int) - (h : Int) := by
    omega
  constructor
  · intro rc hrc
    rw [hrecs] at hrc
    have hmem := (mem_hfLoop M series past future tl h ns r _ 0 st0 fc0 rc hrc).1
    have hle := mem_pred_times_le _ lv _ _ hmem
    rw [hlveq, hcast] at hle
    unfold TimeSeries.end_time
    have hcast1 : ((series.len - 1 : Nat) : Int) = (series.len : Int) - 1 := by
      omega
    rw [hcast1]
    have hring : ((series.len : Int) - (h : Int)) * series.freq + (h : Int) * series.freq
        - series.freq = ((series.len : Int) - 1) * series.freq := by ring
    have hmul := mul_le_mul_of_nonneg_right (le_refl ((series.len : Int) - (h : Int)))
      (le_of_lt hf)
    nlinarith [hle, hring]
  · intro lv' hlv'
    obtain ⟨-, -, hlv'eq⟩ := get_last_prediction_time_false_elim hlv'
    rw [hlv'eq, hcast]
    unfold TimeSeries.end_time
    have hcast1 : ((series.len - 1 : Nat) : Int) = (series.len : Int) - 1 := by
      omega
    rw [hcast1]
    ring

/-- Closed witness for `hf_origin_bound`: on the concrete run `runW` every
origin stays a horizon inside the series and the admissible bound is one step
before the end. -/
theorem hf_origin_bound_witness :
    (0 : Int) < seriesW.freq
    ∧ historicalForecastsRun demoM 0 false seriesW none none 1 none 3 1 1
        (Retrain.bool true) false true = .ok (recsOf runW, outOf runW)
    ∧ ((∀ rc ∈ recsOf runW,
          (rc.pred_time - seriesW.freq) + (1 : Int) * seriesW.freq ≤ seriesW.end_time)
       ∧ (∀ lv, get_last_prediction_time seriesW 1 false = .ok lv →
          lv - seriesW.freq = seriesW.end_time - (1 : Int) * seriesW.freq)) := by
  have h1 : (0 : Int) < seriesW.freq := by decide
  have h2 : historicalForecastsRun demoM 0 false seriesW none none 1 none 3 1 1
      (Retrain.bool true) false true = .ok (recsOf runW, outOf runW) := rfl
  exact ⟨h1, h2, hf_origin_bound h1 h2⟩

/-- C3: with an integer retrain value `k > 0` on a model allowing skipped
retraining, the model is refit exactly at iterations `0, k, 2k, ...`; and for
any retrain policy whatsoever, a never-fitted model is refit at the first
iteration. -/
theorem hf_retrain_every_k {S V : Type} [Inhabited V] {M : ModelCls S V} {st0 : S}
    {fc0 : Bool} {series : TimeSeries V} {past future : Option (TimeSeries V)}
    {ns : Nat} {tl : Option Int} {start h stride : Nat} {oe lpo : Bool}
    {recs : List (IterRecord V)} {out : HFOutput V} (k : Nat) (hk : 0 < k)
    (hrun : historicalForecastsRun M st0 fc0 series past future ns tl start h stride
      (Retrain.int (k : Int)) oe lpo = .ok (recs, out)) :
    (∀ i rc, recs.get? i = some rc → (rc.didFit = true ↔ i % k = 0))
    ∧ (∀ (r' : Retrain V) (recs' : List (IterRecord V)) (out' : HFOutput V),
        historicalForecastsRun M st0 false series past future ns tl start h stride r' oe lpo
          = .ok (recs', out') →
        ∀ rc0, recs'.get? 0 = some rc0 → rc0.didFit = true) := by
  constructor
  · obtain ⟨-, lv, -, hrecs, -⟩ := historicalForecastsRun_ok_elim hrun
    intro i rc hget
    rw [hrecs] at hget
    have hd := hfLoop_get?_didFit M series past future tl h ns (Retrain.int (k : Int))
      _ 0 st0 fc0 i rc hget
    rw [Nat.zero_add] at hd
    simp only [retrainDecision] at hd
    rw [if_pos (by omega : (k : Int) ≠ 0)] at hd
    have hmod : ((i : Int) % (k : Int) = 0) ↔ i % k = 0 := by
      constructor
      · intro hx; omega
      · intro hx; omega
    rcases Nat.eq_zero_or_pos i with rfl | hi
    · have hz : ((0 : Nat) : Int) % (k : Int) = 0 := by simp
      rw [hd]
      simp [hz]
    · have h0 : decide (0 < i) = true := by simpa using hi
      rw [h0] at hd
      simp only [Bool.or_true, Bool.not_true, Bool.false_or] at hd
      rw [hd]
      simp [hmod]
  · intro r' recs' out' hrun' rc0 hget0
    obtain ⟨-, lv, -, hrecs', -⟩ := historicalForecastsRun_ok_elim hrun'
    rw [hrecs'] at hget0
    have hd := hfLoop_get?_didFit M series past future tl h ns r' _ 0 st0 false 0 rc0 hget0
    simpa using hd

/-- Closed witness for `hf_retrain_every_k`: on `runWk` (`retrain = 2`, four
iterations) the model is refit exactly at the even iterations, and the first
iteration always refits a never-fitted model. -/
theorem hf_retrain_every_k_witness :
    0 < 2
    ∧ historicalForecastsRun demoM 0 false seriesW none none 1 none 1 1 1
        (Retrain.int 2) false false = .ok (recsOf runWk, outOf runWk)
    ∧ ((∀ i rc, (recsOf runWk).get? i = some rc → (rc.didFit = true ↔ i % 2 = 0))
       ∧ (∀ (r' : Retrain Int) (recs' : List (IterRecord Int)) (out' : HFOutput Int),
           historicalForecastsRun demoM 0 false seriesW none none 1 none 1 1 1 r' false false
             = .ok (recs', out') →
           ∀ rc0, recs'.get? 0 = some rc0 → rc0.didFit = true)) := by
  have h2 : historicalForecastsRun demoM 0 false seriesW none none 1 none 1 1 1
      (Retrain.int 2) false false = .ok (recsOf runWk, outOf runWk) := rfl
  exact ⟨by decide, h2, hf_retrain_every_k 2 (by decide) h2⟩

/-- C9: with `retrain = False`, `num_samples = 1` and an already-fitted model,
rerunning `historical_forecasts` on identical inputs returns the identical
result, and no iteration refits the model. -/
theorem hf_idempotent_no_retrain {S V : Type} [Inhabited V] {M : ModelCls S V} {st0 : S}
    {series : TimeSeries V} {past future : Option (TimeSeries V)}
    {tl : Option Int} {start h stride : Nat} {oe lpo : Bool}
    {recs : List (IterRecord V)} {out : HFOutput V}
    (hrun : historicalForecastsRun M st0 true series past future 1 tl start h stride
      (Retrain.bool false) oe lpo = .ok (recs, out)) :
    historicalForecastsRun M st0 true series past future 1 tl start h stride
      (Retrain.bool false) oe lpo = .ok (recs, out)
    ∧ ∀ rc ∈ recs, rc.didFit = false := by
  refine ⟨hrun, ?_⟩
  obtain ⟨-, lv, -, hrecs, -⟩ := historicalForecastsRun_ok_elim hrun
  intro rc hrc
  rw [hrecs] at hrc
  obtain ⟨i, hlt, hEq⟩ := List.mem_iff_getElem.mp hrc
  have hget : (hfLoop M series past future tl h 1 (Retrain.bool false) 0 st0 true
      (pred_times (series.t0 + (start : Int) * series.freq) lv
        (series.freq * (stride : Int)))).get? i = some rc := by
    rw [List.get?_eq_getElem?, List.getElem?_eq_getElem hlt, hEq]
  have hd := hfLoop_get?_didFit M series past future tl h 1 (Retrain.bool false)
    _ 0 st0 true i rc hget
  simpa [retrainDecision] using hd

/-- Closed witness for `hf_idempotent_no_retrain`: rerunning `runWfalse`
(`retrain = False`, model already fitted) reproduces its result and never
refits. -/
theorem hf_idempotent_no_retrain_witness :
    historicalForecastsRun demoM 5 true seriesW none none 1 none 3 1 1
      (Retrain.bool false) false true = .ok (recsOf runWfalse, outOf runWfalse)
    ∧ (historicalForecastsRun demoM 5 true seriesW none none 1 none 3 1 1
        (Retrain.bool false) false true = .ok (recsOf runWfalse, outOf runWfalse)
       ∧ ∀ rc ∈ recsOf runWfalse, rc.didFit = false) := by
  have h2 : historicalForecastsRun demoM 5 true seriesW none none 1 none 3 1 1
      (Retrain.bool false) false true = .ok (recsOf runWfalse, outOf runWfalse) := rfl
  exact ⟨h2, hf_idempotent_no_retrain h2⟩

theorem hfLoop_int_zero_eq {S V : Type} (M : ModelCls S V) (series : TimeSeries V)
    (past future : Option (TimeSeries V)) (tl : Option Int) (h ns : Nat) :
    ∀ (ts : List Int) (c : Nat) (st : S) (fc : Bool),
      hfLoop M series past future tl h ns (Retrain.int 0) c st fc ts
        = hfLoop M series past future tl h ns (Retrain.bool false) c st fc ts := by
  intro ts
  induction ts with
  | nil => intro c st fc; rfl
  | cons t ts ih =>
      intro c st fc
      simp only [hfLoop]
      rw [ih]
      rfl

theorem run_int_zero_eq {S V : Type} [Inhabited V] {M : ModelCls S V} {st0 : S}
    {fc0 : Bool} {series : TimeSeries V} {past future : Option (TimeSeries V)}
    {ns : Nat} {tl : Option Int} {start h stride : Nat} {oe lpo : Bool} :
    historicalForecastsRun M st0 fc0 series past future ns tl start h stride
      (Retrain.int 0) oe lpo
    = historicalForecastsRun M st0 fc0 series past future ns tl start h stride
      (Retrain.bool false) oe lpo := by
  unfold historicalForecastsRun
  have hval : hfValidate M series tl start h stride (Retrain.int (0 : Int))
      = hfValidate M series tl start h stride (Retrain.bool false) := rfl
  rw [hval]
  cases hfValidate M series tl start h stride (Retrain.bool false) with
  | some e => rfl
  | none =>
      cases get_last_prediction_time series h oe with
      | error e => rfl
      | ok lv =>
          simp only []
          rw [hfLoop_int_zero_eq]

/-- C10: the integer retrain value `0` is accepted and behaves exactly like
`retrain = False`: the run returns the same result, and an iteration refits
only when it is the first one and the model was never fitted. -/
theorem hf_retrain_zero {S V : Type} [Inhabited V] {M : ModelCls S V} {st0 : S}
    {fc0 : Bool} {series : TimeSeries V} {past future : Option (TimeSeries V)}
    {ns : Nat} {tl : Option Int} {start h stride : Nat} {oe lpo : Bool}
    {recs : List (IterRecord V)} {out : HFOutput V}
    (hrun : historicalForecastsRun M st0 fc0 series past future ns tl start h stride
      (Retrain.int 0) oe lpo = .ok (recs, out)) :
    historicalForecastsRun M st0 fc0 series past future ns tl start h stride
      (Retrain.bool false) oe lpo = .ok (recs, out)
    ∧ (∀ i rc, recs.get? i = some rc → (rc.didFit = true ↔ (i = 0 ∧ fc0 = false))) := by
  constructor
  · rw [← run_int_zero_eq]
    exact hrun
  · obtain ⟨-, lv, -, hrecs, -⟩ := historicalForecastsRun_ok_elim hrun
    intro i rc hget
    rw [hrecs] at hget
    have hd := hfLoop_get?_didFit M series past future tl h ns (Retrain.int 0)
      _ 0 st0 fc0 i rc hget
    have hdec : retrainDecision (Retrain.int 0) (0 + i) rc.pred_time rc.train
        rc.retrainPast rc.retrainFuture = false := by
      unfold retrainDecision
      simp
    rw [hdec, Bool.or_false] at hd
    rw [hd]
    cases fc0 <;> cases i <;> simp

/-- Closed witness for `hf_retrain_zero`: `runWzero` (integer retrain `0`,
never-fitted model, four iterations) is accepted, equals the
`retrain = False` run, and fits only at iteration 0. -/
theorem hf_retrain_zero_witness :
    historicalForecastsRun demoM 0 false seriesW none none 1 none 1 1 1
      (Retrain.int 0) false false = .ok (recsOf runWzero, outOf runWzero)
    ∧ (historicalForecastsRun demoM 0 false seriesW none none 1 none 1 1 1
        (Retrain.bool false) false false = .ok (recsOf runWzero, outOf runWzero)
       ∧ (∀ i rc, (recsOf runWzero).get? i = some rc →
           (rc.didFit = true ↔ (i = 0 ∧ false = false)))) := by
  have h2 : historicalForecastsRun demoM 0 false seriesW none none 1 none 1 1 1
      (Retrain.int 0) false false = .ok (recsOf runWzero, outOf runWzero) := rfl
  exact ⟨h2, hf_retrain_zero h2⟩

/-- C6: for every iteration, with `train_length = L` the training series is
the trailing slice of the strict prefix ending at the forecast-origin and has
length `min L (prefix length)`; with `train_length` unset it is the whole
prefix (expanding window). -/
theorem hf_train_window {S V : Type} [Inhabited V] {M : ModelCls S V} {st0 : S}
    {fc0 : Bool} {series : TimeSeries V} {past future : Option (TimeSeries V)}
    {ns : Nat} {tl : Option Int} {start h stride : Nat} {r : Retrain V} {oe lpo : Bool}
    {recs : List (IterRecord V)} {out : HFOutput V}
    (hrun : historicalForecastsRun M st0 fc0 series past future ns tl start h stride r
      oe lpo = .ok (recs, out)) :
    ∀ rc ∈ recs,
      (∀ L, tl = some L →
        rc.train.len = min L.toNat (series.drop_after rc.pred_time).len
        ∧ rc.train.vals = (series.drop_after rc.pred_time).vals.drop
            ((series.drop_after rc.pred_time).len - L.toNat))
      ∧ (tl = none → rc.train = series.drop_after rc.pred_time) := by
  obtain ⟨hv, lv, -, hrecs, -⟩ := historicalForecastsRun_ok_elim hrun
  obtain ⟨-, -, -, htl, -, -⟩ := hfValidate_none_elim hv
  intro rc hrc
  rw [hrecs] at hrc
  have htrain := (mem_hfLoop M series past future tl h ns r _ 0 st0 fc0 rc hrc).2.1
  constructor
  · intro L hL
    obtain ⟨hL1, -⟩ := trainLengthError_none_elim htl L hL
    subst hL
    rw [htrain]
    simp only [trainOf]
    set pre := series.drop_after rc.pred_time with hpre
    by_cases hlen : L ≠ 0 ∧ L < (pre.len : Int)
    · rw [if_pos hlen]
      have hLlt : L.toNat < pre.len := by omega
      constructor
      · show (pre.vals.drop (pre.len - L.toNat)).length = _
        rw [List.length_drop]
        have : pre.len = pre.vals.length := rfl
        omega
      · rfl
    · rw [if_neg hlen]
      have hge : pre.len ≤ L.toNat := by omega
      constructor
      · omega
      · have : pre.len - L.toNat = 0 := by omega
        rw [this, List.drop_zero]
  · intro hnone
    subst hnone
    rw [htrain]
    rfl

/-- Closed witness for `hf_train_window`: on `runWtl` (`train_length = 2`)
every training series is the trailing slice of the prefix with length
`min 2 (prefix length)`. -/
theorem hf_train_window_witness :
    historicalForecastsRun demoM 0 false seriesW none none 1 (some 2) 3 1 1
      (Retrain.bool true) false true = .ok (recsOf runWtl, outOf runWtl)
    ∧ (∀ rc ∈ recsOf runWtl,
        (∀ L, (some (2 : Int) : Option Int) = some L →
          rc.train.len = min L.toNat (seriesW.drop_after rc.pred_time).len
          ∧ rc.train.vals = (seriesW.drop_after rc.pred_time).vals.drop
              ((seriesW.drop_after rc.pred_time).len - L.toNat))
        ∧ ((some (2 : Int) : Option Int) = none → rc.train = seriesW.drop_after rc.pred_time)) := by
  have h2 : historicalForecastsRun demoM 0 false seriesW none none 1 (some 2) 3 1 1
      (Retrain.bool true) false true = .ok (recsOf runWtl, outOf runWtl) := rfl
  exact ⟨h2, hf_train_window h2⟩

/-- C4: with `last_points_only = true` the assembled series has one point per
scheduled forecast-origin, time step `series.freq * stride`, and the columns,
static covariates and hierarchy of the input series. -/
theorem hf_assembled_series {S V : Type} [Inhabited V] {M : ModelCls S V} {st0 : S}
    {fc0 : Bool} {series : TimeSeries V} {past future : Option (TimeSeries V)}
    {ns : Nat} {tl : Option Int} {start h stride : Nat} {r : Retrain V} {oe : Bool}
    {recs : List (IterRecord V)} {assembled : TimeSeries V}
    (hrun : historicalForecastsRun M st0 fc0 series past future ns tl start h stride r
      oe true = .ok (recs, HFOutput.single assembled)) :
    (∀ lv, get_last_prediction_time series h oe = .ok lv →
      assembled.len = (pred_times (series.t0 + (start : Int) * series.freq) lv
        (series.freq * (stride : Int))).length)
    ∧ assembled.freq = series.freq * (stride : Int)
    ∧ assembled.columns = series.columns
    ∧ assembled.static_covariates = series.static_covariates
    ∧ assembled.hierarchy = series.hierarchy := by
  obtain ⟨hv, lv, hlv, hrecs, hassem⟩ := historicalForecastsRun_ok_elim hrun
  have hrecslen : recs.length = (pred_times (series.t0 + (start : Int) * series.freq) lv
      (series.freq * (stride : Int))).length := by
    rw [hrecs]
    exact hfLoop_length M series past future tl h ns r _ 0 st0 fc0
  unfold assembleResult at hassem
  rw [if_pos rfl] at hassem
  cases hr : recs with
  | nil => rw [hr] at hassem; cases hassem
  | cons r0 rs =>
      rw [hr] at hassem
      injection hassem with hassem
      injection hassem with hassem
      have hfields := congrArg TimeSeries.freq hassem
      have hcols := congrArg TimeSeries.columns hassem
      have hsc := congrArg TimeSeries.static_covariates hassem
      have hhier := congrArg TimeSeries.hierarchy hassem
      have hvals := congrArg TimeSeries.vals hassem
      refine ⟨?_, hfields.symm ▸ rfl, ?_, ?_, ?_⟩
      · intro lv' hlv'
        rw [hlv] at hlv'
        injection hlv' with hlv'
        subst hlv'
        have : assembled.len = (r0 :: rs).length := by
          unfold TimeSeries.len
          rw [← hvals]
          simp
        rw [this, ← hr, hrecslen]
      · rw [← hcols]
      · rw [← hsc]
      · rw [← hhier]

/-- Closed witness for `hf_assembled_series`: the collapsed output of `runW`
has one point per scheduled origin, step `1 * 1`, and the metadata of
`seriesW`. -/
theorem hf_assembled_series_witness :
    historicalForecastsRun demoM 0 false seriesW none none 1 none 3 1 1
      (Retrain.bool true) false true
      = .ok (recsOf runW, HFOutput.single (theSingle (outOf runW)))
    ∧ ((∀ lv, get_last_prediction_time seriesW 1 false = .ok lv →
        (theSingle (outOf runW)).len = (pred_times (seriesW.t0 + (3 : Int) * seriesW.freq) lv
          (seriesW.freq * (1 : Int))).length)
       ∧ (theSingle (outOf runW)).freq = seriesW.freq * (1 : Int)
       ∧ (theSingle (outOf runW)).columns = seriesW.columns
       ∧ (theSingle (outOf runW)).static_covariates = seriesW.static_covariates
       ∧ (theSingle (outOf runW)).hierarchy = seriesW.hierarchy) := by
  have h2 : historicalForecastsRun demoM 0 false seriesW none none 1 none 3 1 1
      (Retrain.bool true) false true
      = .ok (recsOf runW, HFOutput.single (theSingle (outOf runW))) := rfl
  exact ⟨h2, hf_assembled_series h2⟩

/-- C5 counterexample: on `seriesW` with horizon 2 the last admissible
prediction time is timestamp 3, and the resolved start (index 4, timestamp 4)
lies past it, so no forecast-origin exists — yet with
`last_points_only = false` the run returns an ordinary result (an empty
forecast list) instead of failing with an empty-range error. -/
theorem hf_empty_range_counterexample :
    historicalForecastsRun demoM 0 false seriesW none none 1 none 4 2 1
      (Retrain.bool true) false false = .ok ([], HFOutput.several []) := by
  rfl

/-- C5 corrected: when no valid forecast-origin exists (the resolved start is
past the last admissible prediction time), the schedule is empty; with
`last_points_only = false` the run returns an empty forecast list without any
error, and with `last_points_only = true` it fails — but with a generic
index error from reading the first collected point, not a dedicated
empty-range error, and only after the (empty) loop. -/
theorem hf_empty_range {S V : Type} [Inhabited V] {M : ModelCls S V} {st0 : S}
    {fc0 : Bool} {series : TimeSeries V} {past future : Option (TimeSeries V)}
    {ns : Nat} {tl : Option Int} {start h stride : Nat} {r : Retrain V} {oe : Bool}
    (hv : hfValidate M series tl start h stride r = none)
    (lv : Int) (hlv : get_last_prediction_time series h oe = .ok lv)
    (hstart : lv < series.t0 + (start : Int) * series.freq) :
    historicalForecastsRun M st0 fc0 series past future ns tl start h stride r oe false
      = .ok ([], .several [])
    ∧ historicalForecastsRun M st0 fc0 series past future ns tl start h stride r oe true
      = .error .indexError := by
  have hpt : pred_times (series.t0 + (start : Int) * series.freq) lv
      (series.freq * (stride : Int)) = [] :=
    pred_times_empty_of_gt _ _ _ hstart
  constructor
  · unfold historicalForecastsRun
    rw [hv, hlv]
    simp only []
    rw [hpt]
    rfl
  · unfold historicalForecastsRun
    rw [hv, hlv]
    simp only []
    rw [hpt]
    rfl

/-- Closed witness for `hf_empty_range`: the concrete empty-schedule
configuration of `runWempty` returns `ok []` in list mode and an index error
in collapsed mode. -/
theorem hf_empty_range_witness :
    hfValidate demoM seriesW none 4 2 1 (Retrain.bool true) = none
    ∧ get_last_prediction_time seriesW 2 false = .ok 3
    ∧ (3 : Int) < seriesW.t0 + (4 : Int) * seriesW.freq
    ∧ (historicalForecastsRun demoM 0 false seriesW none none 1 none 4 2 1
        (Retrain.bool true) false false = .ok ([], .several [])
       ∧ historicalForecastsRun demoM 0 false seriesW none none 1 none 4 2 1
        (Retrain.bool true) false true = .error .indexError) := by
  have h1 : hfValidate demoM seriesW none 4 2 1 (Retrain.bool true) = none := rfl
  have h2 : get_last_prediction_time seriesW 2 false = .ok 3 := rfl
  have h3 : (3 : Int) < seriesW.t0 + (4 : Int) * seriesW.freq := by decide
  exact ⟨h1, h2, h3, hf_empty_range h1 3 h2 h3⟩

theorem TimeSeries.drop_after_t0 {V : Type} (s : TimeSeries V) (t : Int) :
    (s.drop_after t).t0 = s.t0 := rfl

theorem TimeSeries.drop_after_freq {V : Type} (s : TimeSeries V) (t : Int) :
    (s.drop_after t).freq = s.freq := rfl

theorem TimeSeries.lastN_t0 {V : Type} (s : TimeSeries V) (L : Nat) :
    (s.lastN L).t0 = s.t0 + ((s.len - L : Nat) : Int) * s.freq := rfl

theorem TimeSeries.lastN_freq {V : Type} (s : TimeSeries V) (L : Nat) :
    (s.lastN L).freq = s.freq := rfl

theorem trainOf_grid {V : Type} (series : TimeSeries V) (tl : Option Int) (t : Int) :
    (trainOf series tl t).freq = series.freq
    ∧ ∃ d : Nat, (trainOf series tl t).t0 = series.t0 + (d : Int) * series.freq := by
  unfold trainOf
  cases tl with
  | none =>
      refine ⟨TimeSeries.drop_after_freq series t, 0, ?_⟩
      rw [TimeSeries.drop_after_t0]
      simp
  | some L =>
      simp only []
      split
      · refine ⟨?_, (series.drop_after t).len - L.toNat, ?_⟩
        · rw [TimeSeries.lastN_freq, TimeSeries.drop_after_freq]
        · rw [TimeSeries.lastN_t0, TimeSeries.drop_after_t0, TimeSeries.drop_after_freq]
      · refine ⟨TimeSeries.drop_after_freq series t, 0, ?_⟩
        rw [TimeSeries.drop_after_t0]
        simp

/-- C1 corrected: training-window causality holds — every timestamp of the
training series, and of the covariate windows handed to the retrain callable,
respects the forecast-origin (`pred_time - freq`) bound for the target and
past covariates and the `origin + horizon` bound for future covariates
(covariates on the target grid); but the covariate series passed to the
model's *fit* call are the full, unsliced input covariates. -/
theorem hf_causality {S V : Type} [Inhabited V] {M : ModelCls S V} {st0 : S}
    {fc0 : Bool} {series : TimeSeries V} {past future : Option (TimeSeries V)}
    {ns : Nat} {tl : Option Int} {start h stride : Nat} {r : Retrain V} {oe lpo : Bool}
    {recs : List (IterRecord V)} {out : HFOutput V}
    (hf : 0 < series.freq)
    (hrun : historicalForecastsRun M st0 fc0 series past future ns tl start h stride r
      oe lpo = .ok (recs, out)) :
    ∀ rc ∈ recs,
      (∀ x ∈ rc.train.time_index, x ≤ rc.pred_time - series.freq)
      ∧ (∀ pc w, past = some pc → pc.freq = series.freq →
          (∃ a : Int, pc.t0 = series.t0 + a * series.freq) →
          rc.retrainPast = some w →
          ∀ x ∈ w.time_index, x ≤ rc.pred_time - series.freq)
      ∧ (∀ fc w, future = some fc → fc.freq = series.freq →
          (∃ a : Int, fc.t0 = series.t0 + a * series.freq) →
          rc.retrainFuture = some w →
          ∀ x ∈ w.time_index, x ≤ (rc.pred_time - series.freq) + (h : Int) * series.freq)
      ∧ (rc.didFit = true →
          rc.fitSeries = some rc.train ∧ rc.fitPast = past ∧ rc.fitFuture = future) := by
  obtain ⟨hv, lv, hlv, hrecs, -⟩ := historicalForecastsRun_ok_elim hrun
  intro rc hrc
  rw [hrecs] at hrc
  obtain ⟨hmem, htrain, hrp, hrf, hfs, hfp, hff⟩ :=
    mem_hfLoop M series past future tl h ns r _ 0 st0 fc0 rc hrc
  obtain ⟨k, hk⟩ := mem_pred_times_grid _ lv _ _ hmem
  have hm : rc.pred_time = series.t0 + ((start : Int) + (k : Int) * (stride : Int))
      * series.freq := by
    rw [hk]; ring
  set m : Int := (start : Int) + (k : Int) * (stride : Int) with hmdef
  refine ⟨?_, ?_, ?_, ?_⟩
  · intro x hx
    rw [htrain] at hx
    have hlt := trainOf_time_lt series tl rc.pred_time hf x hx
    obtain ⟨hfreq, d, ht0⟩ := trainOf_grid series tl rc.pred_time
    rw [TimeSeries.mem_time_index] at hx
    obtain ⟨i, hi, hxeq⟩ := hx
    rw [ht0, hfreq] at hxeq
    exact grid_le_sub_of_lt hf ((d : Int) + (i : Int)) m (by rw [hxeq]; ring) hm hlt
  · intro pc w hpc hpcf hgr hw x hx
    obtain ⟨a, hpct0⟩ := hgr
    subst hpc
    rw [hrp] at hw
    simp only [pastWinOf] at hw
    by_cases hup : r.usesPastCov = true
    · rw [if_pos hup] at hw
      injection hw with hw
      subst hw
      have hlt := TimeSeries.drop_after_lt pc rc.pred_time (by rw [hpcf]; exact hf) x hx
      rw [TimeSeries.mem_time_index] at hx
      obtain ⟨i, hi, hxeq⟩ := hx
      have ht0 : (pc.drop_after rc.pred_time).t0 = pc.t0 := rfl
      have hfr : (pc.drop_after rc.pred_time).freq = pc.freq := rfl
      rw [ht0, hfr, hpct0, hpcf] at hxeq
      exact grid_le_sub_of_lt hf (a + (i : Int)) m (by rw [hxeq]; ring) hm hlt
    · rw [if_neg hup] at hw
      cases hw
  · intro fc w hfc hfcf hgr hw x hx
    obtain ⟨a, hfct0⟩ := hgr
    subst hfc
    rw [hrf] at hw
    simp only [futWinOf] at hw
    by_cases huf : r.usesFutureCov = true
    · rw [if_pos huf] at hw
      injection hw with hw
      subst hw
      have hlt := TimeSeries.drop_after_lt fc
        (min (rc.pred_time + series.freq * (h : Int)) series.end_time)
        (by rw [hfcf]; exact hf) x hx
      have hlt2 : x < rc.pred_time + series.freq * (h : Int) :=
        lt_of_lt_of_le hlt (min_le_left _ _)
      rw [TimeSeries.mem_time_index] at hx
      obtain ⟨i, hi, hxeq⟩ := hx
      have ht0 : (fc.drop_after
          (min (rc.pred_time + series.freq * (h : Int)) series.end_time)).t0 = fc.t0 := rfl
      have hfr : (fc.drop_after
          (min (rc.pred_time + series.freq * (h : Int)) series.end_time)).freq
          = fc.freq := rfl
      rw [ht0, hfr, hfct0, hfcf] at hxeq
      have hb := grid_le_sub_of_lt hf (a + (i : Int)) (m + (h : Int))
        (by rw [hxeq]; ring) (by rw [hm]; ring) hlt2
      have hring : rc.pred_time - series.freq + (h : Int) * series.freq
          = rc.pred_time + series.freq * (h : Int) - series.freq := by ring
      rw [hring]
      exact hb
    · rw [if_neg huf] at hw
      cases hw
  · intro hdf
    exact ⟨by rw [hfs, if_pos hdf], by rw [hfp, if_pos hdf], by rw [hff, if_pos hdf]⟩

/-- C1 counterexample: in `runWcov` (horizon 1, retrain every iteration,
past covariates extending to timestamp 9) the fit calls receive the full
covariate series: some fit call is handed a past-covariate series containing
timestamp 9, which exceeds that iteration's forecast-origin
(`pred_time - freq = 2`) and even `origin + horizon`; this refutes the claim
that covariate windows passed to fit never exceed those bounds. -/
theorem hf_fit_covariates_leak :
    historicalForecastsRun demoM 0 false seriesW (some pcW) none 1 none 3 1 1
      (Retrain.bool true) false true = .ok (recsOf runWcov, outOf runWcov)
    ∧ ∃ rc ∈ recsOf runWcov, rc.fitPast = some pcW
        ∧ ∃ x ∈ pcW.time_index, (rc.pred_time - seriesW.freq) + (1 : Int) * seriesW.freq < x := by
  refine ⟨rfl, ?_⟩
  decide

/-- Closed witness for `hf_causality`: in `runWcall` (retrain callable
declaring both covariates, aligned ten-point covariate series) every training
window and every predicate covariate window respects the causality bounds. -/
theorem hf_causality_witness :
    (0 : Int) < seriesW.freq
    ∧ historicalForecastsRun demoM 0 false seriesW (some pcW) (some pcW) 1 none 3 1 1
        (Retrain.callable (fun c _ _ _ _ => decide (c % 2 = 0)) true true) false true
        = .ok (recsOf runWcall, outOf runWcall)
    ∧ (∀ rc ∈ recsOf runWcall,
        (∀ x ∈ rc.train.time_index, x ≤ rc.pred_time - seriesW.freq)
        ∧ (∀ pc w, (some pcW : Option (TimeSeries Int)) = some pc → pc.freq = seriesW.freq →
            (∃ a : Int, pc.t0 = seriesW.t0 + a * seriesW.freq) →
            rc.retrainPast = some w →
            ∀ x ∈ w.time_index, x ≤ rc.pred_time - seriesW.freq)
        ∧ (∀ fc w, (some pcW : Option (TimeSeries Int)) = some fc → fc.freq = seriesW.freq →
            (∃ a : Int, fc.t0 = seriesW.t0 + a * seriesW.freq) →
            rc.retrainFuture = some w →
            ∀ x ∈ w.time_index, x ≤ (rc.pred_time - seriesW.freq) + (1 : Int) * seriesW.freq)
        ∧ (rc.didFit = true →
            rc.fitSeries = some rc.train ∧ rc.fitPast = some pcW ∧ rc.fitFuture = some pcW)) := by
  have h1 : (0 : Int) < seriesW.freq := by decide
  have h2 : historicalForecastsRun demoM 0 false seriesW (some pcW) (some pcW) 1 none 3 1 1
      (Retrain.callable (fun c _ _ _ _ => decide (c % 2 = 0)) true true) false true
      = .ok (recsOf runWcall, outOf runWcall) := rfl
  exact ⟨h1, h2, hf_causality h1 h2⟩

theorem pySample_length {P : Type} (oracle : Nat → Nat) :
    ∀ (k : Nat) (l : List P), k ≤ l.length → (pySample oracle l k).length = k := by
  intro k
  induction k with
  | zero => intro l hk; rfl
  | succ k ih =>
      intro l hk
      cases l with
      | nil => simp at hk
      | cons x xs =>
          simp only [pySample, List.length_cons]
          rw [ih]
          rw [List.length_append, List.length_take, List.length_drop]
          simp only [List.length_cons] at hk ⊢
          have hmod : oracle k % (xs.length + 1) < xs.length + 1 := Nat.mod_lt _ (by omega)
          omega

/-- C7 corrected: the candidate selection of `gridsearch` — an integer
`n_random_samples` in `(0, total]` selects exactly that many combinations and
anything outside raises; a float in `(0, 1]` selects `⌊fraction * total⌋`
combinations (Python `int(...)` truncation, not rounding) and anything outside
raises. -/
theorem gridsearch_sample_count {A : Type} (oracle : Nat → Nat) (pv : List (List A)) :
    (∀ n : Int, 0 < n → n ≤ ((listProduct pv).length : Int) →
        ∃ sel, gridsearchCandidates oracle pv (some (NRandomSamples.int n)) = .ok sel
          ∧ (sel.length : Int) = n)
    ∧ (∀ n : Int, ¬(0 < n ∧ n ≤ ((listProduct pv).length : Int)) →
        gridsearchCandidates oracle pv (some (NRandomSamples.int n)) = .error .indexError)
    ∧ (∀ q : Rat, 0 < q → q ≤ 1 →
        ∃ sel, gridsearchCandidates oracle pv (some (NRandomSamples.float q)) = .ok sel
          ∧ sel.length = (⌊q * ((listProduct pv).length : Rat)⌋).toNat)
    ∧ (∀ q : Rat, ¬(0 < q ∧ q ≤ 1) →
        gridsearchCandidates oracle pv (some (NRandomSamples.float q)) = .error .indexError) := by
  refine ⟨?_, ?_, ?_, ?_⟩
  · intro n hn1 hn2
    refine ⟨pySample oracle (listProduct pv) n.toNat, ?_, ?_⟩
    · simp only [gridsearchCandidates, sample_params]
      rw [if_pos ⟨hn1, hn2⟩]
    · rw [pySample_length oracle _ _ (by omega : n.toNat ≤ (listProduct pv).length)]
      omega
  · intro n hn
    simp only [gridsearchCandidates, sample_params]
    rw [if_neg hn]
  · intro q hq1 hq2
    have hle : (⌊q * ((listProduct pv).length : Rat)⌋).toNat ≤ (listProduct pv).length := by
      have h1 : q * ((listProduct pv).length : Rat) ≤ ((listProduct pv).length : Rat) := by
        calc q * ((listProduct pv).length : Rat)
            ≤ 1 * ((listProduct pv).length : Rat) :=
              mul_le_mul_of_nonneg_right hq2 (by positivity)
          _ = ((listProduct pv).length : Rat) := one_mul _
      have h2 : ⌊q * ((listProduct pv).length : Rat)⌋ ≤ ((listProduct pv).length : Int) := by
        calc ⌊q * ((listProduct pv).length : Rat)⌋
            ≤ ⌊((listProduct pv).length : Rat)⌋ := Int.floor_mono h1
          _ = ((listProduct pv).length : Int) := Int.floor_natCast _
      omega
    refine ⟨pySample oracle (listProduct pv) (⌊q * ((listProduct pv).length : Rat)⌋).toNat,
      ?_, pySample_length oracle _ _ hle⟩
    simp only [gridsearchCandidates, sample_params]
    rw [if_pos ⟨hq1, hq2⟩]
  · intro q hq
    simp only [gridsearchCandidates, sample_params]
    rw [if_neg hq]

/-- C7 counterexample: a 3-element cross product sampled with the fraction
`1/2` yields `int(1.5) = 1` combination, not `round(1.5) = 2` as the claim
states. -/
theorem gridsearch_sample_float_truncates :
    (gridsearchCandidates (fun _ => 0) [[0, 1, 2]] (some (NRandomSamples.float (1/2)))
      = .ok [[0]])
    ∧ round ((1 : Rat)/2 * 3) = 2 := by
  constructor
  · simp only [gridsearchCandidates, sample_params]
    rw [if_pos (⟨by norm_num, by norm_num⟩ : (0 : Rat) < 1/2 ∧ (1 : Rat)/2 ≤ 1)]
    have hlen : ((listProduct [[0, 1, 2]] : List (List Nat)).length : Rat) = 3 := by
      norm_num [listProduct]
    rw [hlen]
    have hfl : ⌊(1 : Rat)/2 * 3⌋ = 1 := by
      rw [Int.floor_eq_iff]
      constructor <;> norm_num
    rw [hfl]
    rfl
  · norm_num [round_eq]

/-- Closed witness for `gridsearch_sample_count`: drawing 2 of the 3
combinations of a 1-by-3 grid returns exactly 2 combinations. -/
theorem gridsearch_sample_count_witness :
    (0 : Int) < 2 ∧ (2 : Int) ≤ ((listProduct [[0, 1, 2]]).length : Int)
    ∧ ∃ sel, gridsearchCandidates (fun _ => 0) [[0, 1, 2]]
        (some (NRandomSamples.int 2)) = .ok sel ∧ (sel.length : Int) = 2 := by
  refine ⟨by decide, by decide, ?_⟩
  exact (gridsearch_sample_count (fun _ => 0) [[0, 1, 2]]).1 2 (by decide) (by decide)

theorem reduceAxis0_pair {V : Type} (red : List Rat → Rat) (g1 g2 : TimeSeries V → Rat)
    (fs : List (TimeSeries V)) :
    reduceAxis0 red 2 (fs.map (fun f => [g1 f, g2 f])) = [red (fs.map g1), red (fs.map g2)] := by
  have h2 : reduceAxis0 red 2 (fs.map (fun f => [g1 f, g2 f]))
      = [red ((fs.map (fun f => [g1 f, g2 f])).map (fun row => row.getD 0 0)),
         red ((fs.map (fun f => [g1 f, g2 f])).map (fun row => row.getD 1 0))] := rfl
  rw [h2, List.map_map, List.map_map]
  rfl

theorem reduceAxis0_one {V : Type} (red : List Rat → Rat) (g1 : TimeSeries V → Rat)
    (fs : List (TimeSeries V)) :
    reduceAxis0 red 1 (fs.map (fun f => [g1 f])) = [red (fs.map g1)] := by
  have h1 : reduceAxis0 red 1 (fs.map (fun f => [g1 f]))
      = [red ((fs.map (fun f => [g1 f])).map (fun row => row.getD 0 0))] := rfl
  rw [h1, List.map_map]
  rfl

/-- C8: `backtest` with `last_points_only = false` and two metrics returns the
2-element vector of per-metric reductions (the mean by default) over the
per-iteration scores; with `reduction = None` it returns the raw
iterations-by-metrics matrix; with a single metric it returns a scalar. -/
theorem backtest_reduction {S V : Type} [Inhabited V] {M : ModelCls S V} {st0 : S}
    {fc0 : Bool} {series : TimeSeries V} {past future : Option (TimeSeries V)}
    {ns : Nat} {tl : Option Int} {start h stride : Nat} {r : Retrain V} {oe : Bool}
    {fs : List (TimeSeries V)} (m1 m2 : TimeSeries V → TimeSeries V → Rat)
    (hrun : historical_forecasts M st0 fc0 series past future ns tl start h stride r
      oe false = .ok (.several fs)) :
    backtest M st0 fc0 series past future ns tl start h stride r oe false
        (.list [m1, m2]) (some npMean)
      = .ok (.vector [npMean (fs.map (fun f => m1 series f)),
                      npMean (fs.map (fun f => m2 series f))])
    ∧ backtest M st0 fc0 series past future ns tl start h stride r oe false
        (.list [m1, m2]) none
      = .ok (.matrix (fs.map (fun f => [m1 series f, m2 series f])))
    ∧ backtest M st0 fc0 series past future ns tl start h stride r oe false
        (.single m1) (some npMean)
      = .ok (.scalar (npMean (fs.map (fun f => m1 series f)))) := by
  refine ⟨?_, ?_, ?_⟩
  · unfold backtest
    rw [hrun]
    simp only [MetricArg.toMetricList, List.map_cons, List.map_nil, List.length_cons,
      List.length_nil]
    rw [reduceAxis0_pair npMean (fun f => m1 series f) (fun f => m2 series f) fs]
    rfl
  · unfold backtest
    rw [hrun]
    simp only [MetricArg.toMetricList, List.map_cons, List.map_nil, List.length_cons,
      List.length_nil]
    rfl
  · unfold backtest
    rw [hrun]
    simp only [MetricArg.toMetricList, List.map_cons, List.map_nil, List.length_cons,
      List.length_nil]
    rw [reduceAxis0_one npMean (fun f => m1 series f) fs]
    rfl

/-- Closed witness for `backtest_reduction`: the two-iteration run behind
`hfW`, scored with the length and first-value metrics. -/
theorem backtest_reduction_witness :
    historical_forecasts demoM 0 false seriesW none none 1 none 3 1 1 (Retrain.bool true)
      false false = .ok (.several (theSeveral (hfOutputOf hfW)))
    ∧ (backtest demoM 0 false seriesW none none 1 none 3 1 1 (Retrain.bool true) false false
        (.list [lenMetric, headMetric]) (some npMean)
        = .ok (.vector [npMean ((theSeveral (hfOutputOf hfW)).map (fun f => lenMetric seriesW f)),
                        npMean ((theSeveral (hfOutputOf hfW)).map (fun f => headMetric seriesW f))])
       ∧ backtest demoM 0 false seriesW none none 1 none 3 1 1 (Retrain.bool true) false false
          (.list [lenMetric, headMetric]) none
          = .ok (.matrix ((theSeveral (hfOutputOf hfW)).map
              (fun f => [lenMetric seriesW f, headMetric seriesW f])))
       ∧ backtest demoM 0 false seriesW none none 1 none 3 1 1 (Retrain.bool true) false false
          (.single lenMetric) (some npMean)
          = .ok (.scalar (npMean ((theSeveral (hfOutputOf hfW)).map
              (fun f => lenMetric seriesW f))))) := by
  have h2 : historical_forecasts demoM 0 false seriesW none none 1 none 3 1 1
      (Retrain.bool true) false false = .ok (.several (theSeveral (hfOutputOf hfW))) := rfl
  exact ⟨h2, backtest_reduction lenMetric headMetric h2⟩

end Darts
